import Mathlib

/-!
Shallow embedding of the Tetris core of `src/main.rs` (lollypoptetris).

The playfield is a `Vec<Vec<Option<Color>>>` of 20 rows by 10 columns; the
active piece is a `Block` with an integer offset and a boolean shape matrix.
Rust `i32` coordinates are modelled as `Int`, `usize` indices as `Nat`,
`u32` score as `Nat` (scores reachable in play are far below `2^32`).
Durations are modelled in milliseconds as `Nat`.  The `f32` fall-interval
formula (`0.9f32.powi(score/1000)`) is floating point and is not modelled.
Audio playback, rendering and the OS-level command spawn are external
effects; the spawn of the one-shot bonus content is modelled as a boolean
event emitted by `checkGameOver`.
-/

namespace LollypopTetris

/-- Constant `GRID_WIDTH: usize = 10`. -/
def GRID_WIDTH : Nat := 10

/-- Constant `GRID_HEIGHT: usize = 20`. -/
def GRID_HEIGHT : Nat := 20

/-- The two colours used by the game (`PINK`, `YELLOW`). -/
inductive Color where
  | pink
  | yellow
deriving DecidableEq

/-- A board: `Vec<Vec<Option<Color>>>`, row-major, `None` = empty cell. -/
abbrev Grid := List (List (Option Color))

/-- The active piece (`struct Block`): offset `(x, y)` in `i32`, the boolean
shape matrix, and a colour. -/
structure Block where
  x : Int
  y : Int
  shape : List (List Bool)
  color : Color
deriving DecidableEq

/-- The I shape from `Block::new`. -/
def iShape : List (List Bool) :=
  [[true, true, true, true],
   [false, false, false, false],
   [false, false, false, false],
   [false, false, false, false]]

/-- The O shape from `Block::new`. -/
def oShape : List (List Bool) :=
  [[true, true],
   [true, true]]

/-- The T shape from `Block::new`. -/
def tShape : List (List Bool) :=
  [[false, true, false],
   [true, true, true],
   [false, false, false]]

/-- Function `Block::can_move`: for every occupied cell of the shape matrix, the
candidate board cell `(x + dx, y + dy)` must be inside the horizontal
bounds and above the bottom bound, and, when its row is `≥ 0`, must be
unoccupied on the board.  The nested `for` loops with early `return false`
are the boolean `all` over the enumerated rows and cells. -/
def Block.canMove (b : Block) (dx dy : Int) (g : Grid) : Bool :=
  b.shape.enum.all fun yrow =>
    yrow.2.enum.all fun xcell =>
      if xcell.2 then
        let nx : Int := b.x + (xcell.1 : Int) + dx
        let ny : Int := b.y + (yrow.1 : Int) + dy
        if nx < 0 ∨ (GRID_WIDTH : Int) ≤ nx ∨ (GRID_HEIGHT : Int) ≤ ny then
          false
        else if 0 ≤ ny ∧ ((g.getD ny.toNat []).getD nx.toNat none).isSome then
          false
        else
          true
      else
        true

/-- The rotated matrix built by `Block::rotate`: `new_shape` has
`cols × rows` dimensions and `new_shape[x][rows - 1 - y] = shape[y][x]`,
i.e. entry `(x, j)` of the new matrix is entry `(rows - 1 - j, x)` of the
old one. -/
def rotateShape (s : List (List Bool)) : List (List Bool) :=
  let rows := s.length
  let cols := (s.getD 0 []).length
  (List.range cols).map fun x =>
    (List.range rows).map fun j => (s.getD (rows - 1 - j) []).getD x false

/-- Function `Block::rotate`: tentatively replace the shape by `rotateShape`; if the
rotated piece fails `can_move(0, 0, grid)` the original shape is restored
(so the block is returned unchanged). -/
def Block.rotate (b : Block) (g : Grid) : Block :=
  let b2 : Block := { b with shape := rotateShape b.shape }
  if b2.canMove 0 0 g then b2 else b

/-- Write one cell of the grid (`self.grid[y][x] = v`); out-of-range
indices leave the grid unchanged (`List.set` is the identity there). -/
def setCell (g : Grid) (y x : Nat) (v : Option Color) : Grid :=
  g.set y ((g.getD y []).set x v)

/-- One iteration of the inner loop of `GameState::place_block` for the
cell `(xcell.1, r)`: if the cell is occupied and `grid_y < GRID_HEIGHT`
(the `as usize` cast of a negative `grid_y` wraps to a huge index, so the
guard is `0 ≤ grid_y ∧ grid_y < GRID_HEIGHT`), write the block's colour.
A negative `grid_x` would wrap to a huge index and panic in the source;
that branch is unreachable under the `can_move` precondition and is
modelled as a no-op. -/
def placeCellStep (b : Block) (r : Nat) (g : Grid) (xcell : Nat × Bool) : Grid :=
  if xcell.2 then
    let gy : Int := b.y + (r : Int)
    let gx : Int := b.x + (xcell.1 : Int)
    if 0 ≤ gy ∧ gy < (GRID_HEIGHT : Int) then
      if 0 ≤ gx then setCell g gy.toNat gx.toNat (some b.color) else g
    else g
  else g

/-- One iteration of the outer loop of `GameState::place_block`:
process every cell of row `yrow`. -/
def placeRowStep (b : Block) (g : Grid) (yrow : Nat × List Bool) : Grid :=
  yrow.2.enum.foldl (placeCellStep b yrow.1) g

/-- Function `GameState::place_block` restricted to its only effect, the grid. -/
def placeBlock (b : Block) (g : Grid) : Grid :=
  b.shape.enum.foldl (placeRowStep b) g

/-- One iteration of the loop of `GameState::clear_lines` at row index
`y`: if every cell of row `y` is occupied, `grid.remove(y)` followed by
`grid.insert(0, vec![None; GRID_WIDTH])`, counting the cleared line. -/
def clearStep (acc : Grid × Nat) (y : Nat) : Grid × Nat :=
  if (acc.1.getD y []).all (fun cell => cell.isSome) then
    (List.replicate GRID_WIDTH (none : Option Color) :: acc.1.eraseIdx y, acc.2 + 1)
  else acc

/-- The row-scanning loop of `GameState::clear_lines`:
`for y in (0..GRID_HEIGHT).rev()`, returning the final grid and the number
of lines cleared. -/
def clearLines (g : Grid) : Grid × Nat :=
  (List.range GRID_HEIGHT).reverse.foldl clearStep (g, 0)

/-- The score update at the end of `GameState::clear_lines`:
`if lines_cleared > 0 { self.score += lines_cleared * 100; ... }`. -/
def scoreAfterClear (score : Nat) (linesCleared : Nat) : Nat :=
  if 0 < linesCleared then score + linesCleared * 100 else score

/-- The all-empty 20 × 10 grid (`vec![vec![None; GRID_WIDTH]; GRID_HEIGHT]`). -/
def emptyGrid : Grid := List.replicate GRID_HEIGHT (List.replicate GRID_WIDTH none)

/-- The game-session state (`struct GameState`), omitting the three audio
sources (external resources with no bearing on the logic).  `fall_time`
and the time stamps are in milliseconds;  `fall_time` is only ever
rewritten through `f32` arithmetic, which is not modelled, so no theorem
here constrains it. -/
structure GameState where
  block : Block
  grid : Grid
  fall_time : Nat
  last_update : Nat
  score : Nat
  game_over : Bool
  freeze_timer : Option Nat
  freeze_start : Option Nat
  death_count : Nat
  jumpscare_shown : Bool
deriving DecidableEq

/-- Constructor `GameState::new` (for an arbitrary randomly drawn first block). -/
def initialState (b : Block) : GameState :=
  { block := b
    grid := emptyGrid
    fall_time := 1000
    last_update := 0
    score := 0
    game_over := false
    freeze_timer := none
    freeze_start := none
    death_count := 0
    jumpscare_shown := false }

/-- The grid-and-score effect of `GameState::clear_lines` (the `f32`
recomputation of `fall_time` is not modelled; the per-row sound is an
external audio effect). -/
def GameState.clearLines (s : GameState) : GameState :=
  let p := LollypopTetris.clearLines s.grid
  { s with grid := p.1, score := scoreAfterClear s.score p.2 }

/-- Function `GameState::check_game_over`, called with the current time in
milliseconds.  Returns the new state together with `true` exactly when
the one-shot bonus-content command (`Command::new("cmd") ... spawn`) is
fired.  The guard is row 0 containing an occupied cell; on game over the
death counter is incremented, a 5-second freeze begins, and the one-shot
fires iff the (incremented) death counter equals 1 and the jumpscare flag
is unset. -/
def checkGameOver (now : Nat) (s : GameState) : GameState × Bool :=
  if (s.grid.getD 0 []).any (fun cell => cell.isSome) then
    let s1 : GameState :=
      { s with game_over := true
               death_count := s.death_count + 1
               freeze_timer := some 5000
               freeze_start := some now }
    if s1.death_count = 1 ∧ s1.jumpscare_shown = false then
      ({ s1 with jumpscare_shown := true }, true)
    else (s1, false)
  else (s, false)

/-- The freeze-expiry branch of `GameState::update`: clear the freeze,
reset the board, score and jumpscare flag, and spawn a fresh (random,
hence parametric) block.  The death counter is NOT reset. -/
def freezeReset (nb : Block) (s : GameState) : GameState :=
  { s with freeze_timer := none
           freeze_start := none
           game_over := false
           grid := emptyGrid
           block := nb
           score := 0
           jumpscare_shown := false }

/-- Abstract trace events for the game-over/reset life cycle: `lock now g`
is a gravity tick whose lock left the grid equal to `g` and then ran
`check_game_over` at time `now`; `reset nb` is the freeze-expiry branch of
`update` spawning block `nb`. -/
inductive Event where
  | lock (now : Nat) (g : Grid)
  | reset (nb : Block)

/-- Apply one event; the boolean is `true` iff the one-shot bonus-content
trigger fired during the event. -/
def step (s : GameState) (e : Event) : GameState × Bool :=
  match e with
  | .lock now g => checkGameOver now { s with grid := g }
  | .reset nb => (freezeReset nb s, false)

/-- Run a list of events, counting how many times the one-shot
bonus-content trigger fired. -/
def run (s : GameState) : List Event → GameState × Nat
  | [] => (s, 0)
  | e :: es =>
      let p := step s e
      let q := run p.1 es
      (q.1, (if p.2 then 1 else 0) + q.2)

/-- Whether an event is a game-over-producing lock: its grid has an
occupied cell in row 0 (the guard of `check_game_over`). -/
def blockedEvent : Event → Bool
  | .lock _ g => (g.getD 0 []).any (fun cell => cell.isSome)
  | .reset _ => false

/-- The keys handled by `GameState::key_down_event`. -/
inductive Key where
  | left
  | right
  | down
  | up
  | space
  | other
deriving DecidableEq

/-- The `while self.block.can_move(0, 1, &self.grid) { self.block.y += 1 }`
loop of the hard-drop (Space) handler, unrolled to `fuel` iterations.
`hardDrop_spec` shows `fuel = GRID_HEIGHT` already reaches the loop's exit
condition for any piece with an occupied cell and `0 ≤ y`. -/
def hardDropGo (g : Grid) : Nat → Block → Block
  | 0, b => b
  | fuel + 1, b =>
      if b.canMove 0 1 g then hardDropGo g fuel { b with y := b.y + 1 } else b

/-- Function `GameState::key_down_event`: while the freeze timer is set every key is
ignored; otherwise Left/Right/Down move by one cell when `can_move`
allows, Up rotates, Space hard-drops, and any other key does nothing. -/
def GameState.keyDownEvent (s : GameState) (k : Key) : GameState :=
  if s.freeze_timer.isSome then s
  else
    match k with
    | .left =>
        if s.block.canMove (-1) 0 s.grid then
          { s with block := { s.block with x := s.block.x - 1 } }
        else s
    | .right =>
        if s.block.canMove 1 0 s.grid then
          { s with block := { s.block with x := s.block.x + 1 } }
        else s
    | .down =>
        if s.block.canMove 0 1 s.grid then
          { s with block := { s.block with y := s.block.y + 1 } }
        else s
    | .up => { s with block := s.block.rotate s.grid }
    | .space => { s with block := hardDropGo s.grid GRID_HEIGHT s.block }
    | .other => s

/-- A well-formed board: exactly `GRID_HEIGHT` rows, each of width
`GRID_WIDTH` (the shape `GameState::new` creates and all grid operations
preserve). -/
def WellFormed (g : Grid) : Prop :=
  g.length = GRID_HEIGHT ∧ ∀ row ∈ g, row.length = GRID_WIDTH

instance (g : Grid) : Decidable (WellFormed g) := by
  unfold WellFormed
  infer_instance

/-- A fully occupied row (all cells `some`). -/
def fullRow : List (Option Color) := List.replicate GRID_WIDTH (some Color.pink)

/-- An empty row. -/
def emptyRow : List (Option Color) := List.replicate GRID_WIDTH (none : Option Color)

/-- The board whose rows 18 and 19 are completely full and all other rows
empty: the lock-time state after stacking four O pieces across all ten
columns. -/
def twoFullGrid : Grid := List.replicate 18 emptyRow ++ [fullRow, fullRow]

/-- An O piece sitting at the bottom-left-center of the board. -/
def oBlock : Block := { x := 4, y := 18, shape := oShape, color := Color.pink }

/-- An O piece at the left wall. -/
def oBlockLeft : Block := { x := 0, y := 0, shape := oShape, color := Color.pink }

/-- A T piece as spawned (x = 3 centers the 3-wide matrix). -/
def tBlock : Block := { x := 3, y := 0, shape := tShape, color := Color.pink }

/-- The T piece rotated once (its matrix has an empty first column),
placed at the left wall. -/
def rtBlock : Block := { x := 0, y := 0, shape := rotateShape tShape, color := Color.pink }

/-- A session state in the frozen (game-over pause) phase. -/
def frozenState : GameState := { initialState oBlock with freeze_timer := some 5000 }

/-! ## Helper lemmas -/

/-- Property of `all` over an index-enumerated list, with explicit indices. -/
theorem enumFrom_all_iff {α : Type} (f : Nat × α → Bool) (l : List α) (n : Nat) :
    ((List.enumFrom n l).all f = true) ↔
      ∀ i (h : i < l.length), f (n + i, l.get ⟨i, h⟩) = true := by
  induction l generalizing n with
  | nil => simp
  | cons a l ih =>
    rw [List.enumFrom_cons, List.all_cons, Bool.and_eq_true, ih]
    constructor
    · rintro ⟨h0, hrest⟩ i hi
      cases i with
      | zero => simpa using h0
      | succ j =>
        have hj : j < l.length := by simpa using hi
        have hx := hrest j hj
        have harith : n + 1 + j = n + (j + 1) := by omega
        rw [harith] at hx
        simpa using hx
    · intro h
      refine ⟨by simpa using h 0 (by simp), fun j hj => ?_⟩
      have hx := h (j + 1) (by simpa using hj)
      have harith : n + (j + 1) = n + 1 + j := by omega
      rw [harith] at hx
      simpa using hx

/-- Specialisation of `enumFrom_all_iff` to starting index 0 (`List.enum`). -/
theorem enum_all_iff {α : Type} (f : Nat × α → Bool) (l : List α) :
    (l.enum.all f = true) ↔ ∀ i (h : i < l.length), f (i, l.get ⟨i, h⟩) = true := by
  have h0 : l.enum = List.enumFrom 0 l := rfl
  rw [h0, enumFrom_all_iff]
  simp

/-- The per-cell body of `Block::can_move`, as a proposition. -/
theorem cellCheck_iff (cell : Bool) (nx ny : Int) (g : Grid) :
    ((if cell then
        (if nx < 0 ∨ (GRID_WIDTH : Int) ≤ nx ∨ (GRID_HEIGHT : Int) ≤ ny then
          false
        else if 0 ≤ ny ∧ ((g.getD ny.toNat []).getD nx.toNat none).isSome then
          false
        else
          true)
      else true) = true) ↔
      (cell = true →
        (0 ≤ nx ∧ nx < (GRID_WIDTH : Int) ∧ ny < (GRID_HEIGHT : Int) ∧
          (0 ≤ ny → ((g.getD ny.toNat []).getD nx.toNat none).isSome = false))) := by
  cases cell with
  | false => simp
  | true =>
    simp only [if_true, forall_const, true_implies]
    split_ifs with h1 h2
    · simp only [false_iff]
      intro hconj
      rcases hconj with ⟨ha, hb, hc, _⟩
      rcases h1 with h | h | h <;> omega
    · simp only [false_iff]
      push_neg at h1
      intro hconj
      rcases hconj with ⟨_, _, _, hd⟩
      rcases h2 with ⟨hny, hsome⟩
      rw [hd hny] at hsome
      exact Bool.false_ne_true hsome
    · simp only [true_iff]
      push_neg at h1
      rcases h1 with ⟨ha, hb, hc⟩
      refine ⟨by omega, by omega, by omega, fun hny => ?_⟩
      cases hval : ((g.getD ny.toNat []).getD nx.toNat none).isSome with
      | false => rfl
      | true => exact absurd ⟨hny, hval⟩ h2

/-- Function `Block::can_move` returns `true` iff every occupied cell of the shape,
shifted by the offset plus `(dx, dy)`, stays inside the horizontal bounds
and above the bottom, and (when its row is nonnegative) lands on an
unoccupied board cell. -/
theorem canMove_eq_true_iff (b : Block) (dx dy : Int) (g : Grid) :
    b.canMove dx dy g = true ↔
      ∀ r (hr : r < b.shape.length) c (hc : c < (b.shape.get ⟨r, hr⟩).length),
        (b.shape.get ⟨r, hr⟩).get ⟨c, hc⟩ = true →
          (0 ≤ b.x + c + dx ∧ b.x + c + dx < (GRID_WIDTH : Int) ∧
            b.y + r + dy < (GRID_HEIGHT : Int) ∧
            (0 ≤ b.y + r + dy →
              ((g.getD (b.y + r + dy).toNat []).getD (b.x + c + dx).toNat none).isSome =
                false)) := by
  simp only [Block.canMove, enum_all_iff, cellCheck_iff]

/-! ## Claims -/

/-- Helper: the `false` characterisation of `Block::can_move`. -/
theorem canMove_eq_false_iff (b : Block) (dx dy : Int) (g : Grid) :
    b.canMove dx dy g = false ↔
      ∃ r c, r < b.shape.length ∧ c < (b.shape.getD r []).length ∧
        (b.shape.getD r []).getD c false = true ∧
        (b.x + c + dx < 0 ∨ (GRID_WIDTH : Int) ≤ b.x + c + dx ∨
          (GRID_HEIGHT : Int) ≤ b.y + r + dy ∨
          (0 ≤ b.y + r + dy ∧ b.y + r + dy < (GRID_HEIGHT : Int) ∧
            ((g.getD (b.y + r + dy).toNat []).getD (b.x + c + dx).toNat none).isSome =
              true)) := by
  constructor
  · intro h
    have hne : ¬ (b.canMove dx dy g = true) := by simp [h]
    rw [canMove_eq_true_iff] at hne
    push_neg at hne
    obtain ⟨r, hr, c, hc, hcell, himpl⟩ := hne
    have hgd : b.shape.getD r [] = b.shape.get ⟨r, hr⟩ := by
      rw [List.getD_eq_getElem _ _ hr]
      rfl
    refine ⟨r, c, hr, by rw [hgd]; exact hc, ?_, ?_⟩
    · rw [hgd, List.getD_eq_getElem _ _ hc]
      exact hcell
    · by_cases h1 : (0 : Int) ≤ b.x + c + dx
      · by_cases h2 : b.x + c + dx < (GRID_WIDTH : Int)
        · by_cases h3 : b.y + r + dy < (GRID_HEIGHT : Int)
          · obtain ⟨h4, h5⟩ := himpl h1 h2 h3
            refine Or.inr (Or.inr (Or.inr ⟨h4, h3, ?_⟩))
            cases hval :
                ((g.getD (b.y + r + dy).toNat []).getD (b.x + c + dx).toNat none).isSome with
            | false => exact absurd hval h5
            | true => rfl
          · exact Or.inr (Or.inr (Or.inl (by omega)))
        · exact Or.inr (Or.inl (by omega))
      · exact Or.inl (by omega)
  · rintro ⟨r, c, hr, hc, hcell, hdisj⟩
    have hgd : b.shape.getD r [] = b.shape.get ⟨r, hr⟩ := by
      rw [List.getD_eq_getElem _ _ hr]
      rfl
    rw [hgd] at hc hcell
    cases hcm : b.canMove dx dy g with
    | false => rfl
    | true =>
      exfalso
      rw [canMove_eq_true_iff] at hcm
      obtain ⟨h1, h2, h3, h4⟩ :=
        hcm r hr c hc (by rw [List.getD_eq_getElem _ _ hc] at hcell; exact hcell)
      rcases hdisj with h | h | h | ⟨ha, hb, hs⟩
      · omega
      · omega
      · omega
      · rw [h4 ha] at hs
        exact Bool.false_ne_true hs

/-- C2: `can_move(dx, dy, board)` returns `false` if and only if some
occupied cell of the piece's matrix, shifted by the piece offset plus
`(dx, dy)`, lands at a column `< 0`, a column `≥ GRID_WIDTH`, a row
`≥ GRID_HEIGHT`, or a row in `[0, GRID_HEIGHT)` whose board cell is
occupied; rows `< 0` are never tested against board occupancy, so a piece
partially above the visible grid can still move. -/
theorem canMove_false_iff (b : Block) (dx dy : Int) (g : Grid) :
    b.canMove dx dy g = false ↔
      ∃ r c, r < b.shape.length ∧ c < (b.shape.getD r []).length ∧
        (b.shape.getD r []).getD c false = true ∧
        (b.x + c + dx < 0 ∨ (GRID_WIDTH : Int) ≤ b.x + c + dx ∨
          (GRID_HEIGHT : Int) ≤ b.y + r + dy ∨
          (0 ≤ b.y + r + dy ∧ b.y + r + dy < (GRID_HEIGHT : Int) ∧
            ((g.getD (b.y + r + dy).toNat []).getD (b.x + c + dx).toNat none).isSome =
              true)) :=
  canMove_eq_false_iff b dx dy g

/-- C3: `rotate` computes the new matrix by
`new[c][rows - 1 - r] = old[r][c]`, and if the rotated piece fails
`can_move(0, 0, board)` the block is returned unchanged (shape, offset and
board untouched); no wall-kick is attempted. -/
theorem rotate_spec (b : Block) (g : Grid) (r c : Nat) (hr : r < b.shape.length)
    (hc : c < (b.shape.getD 0 []).length) :
    ((rotateShape b.shape).getD c []).getD (b.shape.length - 1 - r) false =
      (b.shape.getD r []).getD c false ∧
    (Block.canMove { b with shape := rotateShape b.shape } 0 0 g = false →
      b.rotate g = b) := by
  constructor
  · have hidx : b.shape.length - 1 - r < b.shape.length := by omega
    have houter : (rotateShape b.shape).getD c [] =
        (List.range b.shape.length).map
          (fun j => (b.shape.getD (b.shape.length - 1 - j) []).getD c false) := by
      simp only [rotateShape]
      rw [List.getD_eq_getElem _ _ (by simpa using hc)]
      rw [List.getElem_map, List.getElem_range]
    have hinner : ((List.range b.shape.length).map
          (fun j => (b.shape.getD (b.shape.length - 1 - j) []).getD c false)).getD
            (b.shape.length - 1 - r) false =
        (b.shape.getD (b.shape.length - 1 - (b.shape.length - 1 - r)) []).getD c false := by
      rw [List.getD_eq_getElem _ _ (by simpa using hidx)]
      rw [List.getElem_map, List.getElem_range]
    have harith : b.shape.length - 1 - (b.shape.length - 1 - r) = r := by omega
    rw [houter, hinner, harith]
  · intro h
    rw [Block.rotate]
    simp [h]

/-- Witness for C3 at the spawn T piece and the empty board. -/
theorem rotate_spec_witness :
    ((rotateShape tBlock.shape).getD 0 []).getD (tBlock.shape.length - 1 - 0) false =
      (tBlock.shape.getD 0 []).getD 0 false ∧
    (Block.canMove { tBlock with shape := rotateShape tBlock.shape } 0 0 emptyGrid = false →
      tBlock.rotate emptyGrid = tBlock) :=
  rotate_spec tBlock emptyGrid 0 0 (by decide) (by decide)

/-- C5: the score delta of a lock event is exactly `lines_cleared * 100`;
it is 0 when nothing clears and 400 for a 4-row clear, and the score stays
a natural number. -/
theorem score_delta_spec (st : GameState) :
    (GameState.clearLines st).score = st.score + (clearLines st.grid).2 * 100 ∧
    scoreAfterClear st.score 0 = st.score ∧
    scoreAfterClear st.score 4 = st.score + 400 := by
  refine ⟨?_, by simp [scoreAfterClear], by norm_num [scoreAfterClear]⟩
  rw [GameState.clearLines]
  simp only [scoreAfterClear]
  split_ifs with h
  · rfl
  · have hz : (clearLines st.grid).2 = 0 := by omega
    rw [hz]
    simp

/-- C1 (code bug): on the board whose rows 18 and 19 are both completely
full, one call of `clear_lines` clears only ONE row, leaves a completely
full row at index 19, and the score delta is 100 rather than 200:
`for y in (0..GRID_HEIGHT).rev()` combined with `remove(y)` +
`insert(0, empty)` shifts the adjacent full row to index 19 after the loop
has already passed that index. -/
theorem clearLines_adjacent_full_rows_bug :
    (clearLines twoFullGrid).2 = 1 ∧
    ((clearLines twoFullGrid).1.getD 19 []).all (fun cell => cell.isSome) = true ∧
    scoreAfterClear 0 (clearLines twoFullGrid).2 = 100 := by
  refine ⟨by decide, by decide, by decide⟩

/-- C7: while the freeze timer is set, `key_down_event` ignores every key:
the whole session state is returned unchanged. -/
theorem keyDown_frozen_ignored (s : GameState) (k : Key)
    (h : s.freeze_timer.isSome = true) : s.keyDownEvent k = s := by
  rw [GameState.keyDownEvent.eq_def]
  simp [h]

/-- Witness for C7: a frozen state ignores the hard-drop key. -/
theorem keyDown_frozen_ignored_witness :
    GameState.keyDownEvent frozenState Key.space = frozenState :=
  keyDown_frozen_ignored frozenState Key.space rfl

/-- When row 0 is clear, `check_game_over` does nothing and fires nothing. -/
theorem checkGameOver_not_blocked (now : Nat) (s : GameState)
    (hb : ((s.grid.getD 0 []).any fun cell => cell.isSome) = false) :
    checkGameOver now s = (s, false) := by
  have hnc : ¬ (((s.grid.getD 0 []).any fun cell => cell.isSome) = true) := by
    rw [hb]
    exact Bool.false_ne_true
  rw [checkGameOver, if_neg hnc]

/-- On a game over with the death counter already positive, the one-shot
does not fire; the death counter increments and the jumpscare flag is
untouched. -/
theorem checkGameOver_blocked_dead (now : Nat) (s : GameState)
    (hb : ((s.grid.getD 0 []).any fun cell => cell.isSome) = true)
    (hd : 1 ≤ s.death_count) :
    (checkGameOver now s).2 = false ∧
    (checkGameOver now s).1.death_count = s.death_count + 1 ∧
    (checkGameOver now s).1.jumpscare_shown = s.jumpscare_shown := by
  rw [checkGameOver]
  rw [if_pos hb, if_neg]
  · exact ⟨rfl, rfl, rfl⟩
  · intro hcon
    have h1 := hcon.1
    simp only at h1
    omega

/-- On the first-ever game over (death counter 0, jumpscare flag unset),
the one-shot fires and the death counter becomes 1. -/
theorem checkGameOver_blocked_fresh (now : Nat) (s : GameState)
    (hb : ((s.grid.getD 0 []).any fun cell => cell.isSome) = true)
    (h0 : s.death_count = 0) (h2 : s.jumpscare_shown = false) :
    (checkGameOver now s).2 = true ∧
    (checkGameOver now s).1.death_count = 1 ∧
    (checkGameOver now s).1.jumpscare_shown = true := by
  rw [checkGameOver]
  rw [if_pos hb, if_pos]
  · exact ⟨rfl, by simp [h0], rfl⟩
  · exact ⟨by simp [h0], h2⟩

/-- Unfolding `run` on a cons cell. -/
theorem run_cons (s : GameState) (e : Event) (es : List Event) :
    run s (e :: es) =
      ((run (step s e).1 es).1,
        (if (step s e).2 then 1 else 0) + (run (step s e).1 es).2) := rfl

/-- Once the death counter is positive, no later event ever fires the
one-shot trigger again, and the death counter counts the blocked locks. -/
theorem run_dead (evs : List Event) : ∀ s : GameState, 1 ≤ s.death_count →
    (run s evs).2 = 0 ∧
    (run s evs).1.death_count = s.death_count + evs.countP blockedEvent := by
  induction evs with
  | nil => intro s h; simp [run]
  | cons e es ih =>
    intro s h
    rw [run_cons]
    cases e with
    | lock now g =>
      have hstep : step s (Event.lock now g) = checkGameOver now { s with grid := g } := rfl
      by_cases hb : ((g.getD 0 []).any fun cell => cell.isSome) = true
      · rw [hstep]
        obtain ⟨hf, hdc, _⟩ := checkGameOver_blocked_dead now { s with grid := g } hb h
        obtain ⟨hr1, hr2⟩ := ih (checkGameOver now { s with grid := g }).1 (by omega)
        constructor
        · rw [hf, hr1]
          simp
        · have hbe : blockedEvent (Event.lock now g) = true := hb
          have hproj : ({ s with grid := g } : GameState).death_count = s.death_count := rfl
          rw [hr2, hdc, List.countP_cons_of_pos _ _ hbe, hproj]
          omega
      · have hbf : ((g.getD 0 []).any fun cell => cell.isSome) = false := by
          simpa using hb
        rw [hstep, checkGameOver_not_blocked now { s with grid := g } hbf]
        obtain ⟨hr1, hr2⟩ := ih { s with grid := g } h
        constructor
        · rw [hr1]
          simp
        · have hbe : blockedEvent (Event.lock now g) = false := hbf
          rw [hr2, List.countP_cons_of_neg _ _ (by simp [hbe])]
    | reset nb =>
      have hstep : step s (Event.reset nb) = (freezeReset nb s, false) := rfl
      rw [hstep]
      obtain ⟨hr1, hr2⟩ := ih (freezeReset nb s) h
      constructor
      · rw [hr1]
        simp
      · rw [hr2, List.countP_cons]
        simp [freezeReset, blockedEvent]

/-- From a state with death counter 0 and the jumpscare flag unset, the
one-shot trigger fires exactly once over any event sequence containing a
blocked lock, and never otherwise. -/
theorem run_fresh (evs : List Event) : ∀ s : GameState,
    s.death_count = 0 → s.jumpscare_shown = false →
    (run s evs).2 = (if evs.any blockedEvent then 1 else 0) ∧
    (run s evs).1.death_count = evs.countP blockedEvent := by
  induction evs with
  | nil => intro s h1 h2; simp [run, h1]
  | cons e es ih =>
    intro s h1 h2
    rw [run_cons]
    cases e with
    | lock now g =>
      have hstep : step s (Event.lock now g) = checkGameOver now { s with grid := g } := rfl
      by_cases hb : ((g.getD 0 []).any fun cell => cell.isSome) = true
      · rw [hstep]
        obtain ⟨hf, hdc, _⟩ := checkGameOver_blocked_fresh now { s with grid := g } hb h1 h2
        obtain ⟨hr1, hr2⟩ := run_dead es (checkGameOver now { s with grid := g }).1 (by omega)
        have hany : (Event.lock now g :: es).any blockedEvent = true := by
          have hbe : blockedEvent (Event.lock now g) = true := hb
          simp [List.any_cons, hbe]
        constructor
        · rw [hf, hr1, hany]
          simp
        · have hbe : blockedEvent (Event.lock now g) = true := hb
          rw [hr2, hdc, List.countP_cons_of_pos _ _ hbe]
          omega
      · have hbf : ((g.getD 0 []).any fun cell => cell.isSome) = false := by
          simpa using hb
        rw [hstep, checkGameOver_not_blocked now { s with grid := g } hbf]
        obtain ⟨hr1, hr2⟩ := ih { s with grid := g } h1 h2
        have hbe : blockedEvent (Event.lock now g) = false := hbf
        have hany : (Event.lock now g :: es).any blockedEvent = es.any blockedEvent := by
          simp [List.any_cons, hbe]
        constructor
        · rw [hany, hr1]
          simp
        · rw [hr2, List.countP_cons_of_neg _ _ (by simp [hbe])]
    | reset nb =>
      have hstep : step s (Event.reset nb) = (freezeReset nb s, false) := rfl
      rw [hstep]
      obtain ⟨hr1, hr2⟩ := ih (freezeReset nb s) h1 rfl
      have hany : (Event.reset nb :: es).any blockedEvent = es.any blockedEvent := by
        simp [List.any_cons, blockedEvent]
      constructor
      · rw [hany, hr1]
        simp
      · rw [hr2, List.countP_cons]
        simp [blockedEvent]

/-- C4: across an entire run of the state machine from the initial state,
the one-shot bonus-content trigger fires exactly once as soon as the
trace contains a game over (a lock with row 0 occupied), and never again;
the death counter counts exactly the game overs, so the first game over
sets it to 1. -/
theorem jumpscare_one_shot (b : Block) (evs : List Event) :
    (run (initialState b) evs).2 = (if evs.any blockedEvent then 1 else 0) ∧
    (run (initialState b) evs).1.death_count = evs.countP blockedEvent :=
  run_fresh evs (initialState b) rfl rfl

/-- C9 (counterexample): the once-rotated T piece sits at `x = 0` with an
empty matrix column 0, and on the empty board `can_move(-1, 0)` is `true`:
the move-left command is accepted and moves the piece to `x = -1`. -/
theorem moveLeft_x0_counterexample :
    rtBlock.x = 0 ∧ rtBlock.canMove (-1) 0 emptyGrid = true ∧
    ((initialState rtBlock).keyDownEvent Key.left).block.x = -1 := by
  refine ⟨rfl, by decide, by decide⟩

/-- C9 (amended): a piece at `x = 0` whose matrix has an occupied cell in
column 0 is rejected by move-left: `can_move(-1, 0)` is `false` and
`key_down_event(Left)` leaves the session state unchanged. -/
theorem moveLeft_x0_rejected (b : Block) (g : Grid) (s : GameState)
    (hx : b.x = 0) (hcell : ∃ r, (b.shape.getD r []).getD 0 false = true)
    (hs1 : s.block = b) (hs2 : s.grid = g) :
    b.canMove (-1) 0 g = false ∧ s.keyDownEvent Key.left = s := by
  obtain ⟨r, hcell⟩ := hcell
  have hr : r < b.shape.length := by
    by_contra hge
    push_neg at hge
    rw [List.getD_eq_getElem?_getD b.shape r [],
      List.getElem?_eq_none (show b.shape.length ≤ r by omega)] at hcell
    simp at hcell
  have hrl : 0 < (b.shape.getD r []).length := by
    by_contra hz
    push_neg at hz
    rw [List.getD_eq_getElem?_getD (b.shape.getD r []) 0 false,
      List.getElem?_eq_none (by omega)] at hcell
    simp at hcell
  have hfalse : b.canMove (-1) 0 g = false := by
    rw [canMove_eq_false_iff]
    exact ⟨r, 0, hr, hrl, hcell, Or.inl (by rw [hx]; norm_num)⟩
  refine ⟨hfalse, ?_⟩
  rw [GameState.keyDownEvent.eq_def]
  by_cases hf : s.freeze_timer.isSome = true
  · simp [hf]
  · simp only [Bool.not_eq_true] at hf
    simp [hf, hs1, hs2, hfalse]

/-- Witness for C9 (amended) at an O piece on the left wall. -/
theorem moveLeft_x0_rejected_witness :
    Block.canMove oBlockLeft (-1) 0 emptyGrid = false ∧
    GameState.keyDownEvent (initialState oBlockLeft) Key.left = initialState oBlockLeft :=
  moveLeft_x0_rejected oBlockLeft emptyGrid (initialState oBlockLeft) rfl
    ⟨0, by decide⟩ rfl rfl

/-- When an occupied cell of the shape would step past the bottom bound,
`can_move(0, 1)` is `false`. -/
theorem canMove_down_big (b : Block) (g : Grid) (r c : Nat) (hr : r < b.shape.length)
    (hc : c < (b.shape.get ⟨r, hr⟩).length) (hcell : (b.shape.get ⟨r, hr⟩).get ⟨c, hc⟩ = true)
    (hbig : (GRID_HEIGHT : Int) ≤ b.y + r + 1) :
    b.canMove 0 1 g = false := by
  cases hcm : b.canMove 0 1 g with
  | false => rfl
  | true =>
    exfalso
    obtain ⟨_, _, h3, _⟩ := (canMove_eq_true_iff b 0 1 g).mp hcm r hr c hc hcell
    omega

/-- With fuel at least `GRID_HEIGHT - (y + r)`, the unrolled hard-drop loop
reaches a position from which the piece cannot fall further. -/
theorem hardDropGo_exit (g : Grid) (r c : Nat) :
    ∀ (fuel : Nat) (b : Block) (hr : r < b.shape.length)
      (hc : c < (b.shape.get ⟨r, hr⟩).length),
      (b.shape.get ⟨r, hr⟩).get ⟨c, hc⟩ = true →
      (GRID_HEIGHT : Int) ≤ b.y + r + fuel →
      (hardDropGo g fuel b).canMove 0 1 g = false := by
  intro fuel
  induction fuel with
  | zero =>
    intro b hr hc hcell hbig
    rw [hardDropGo]
    exact canMove_down_big b g r c hr hc hcell (by push_cast at hbig ⊢; omega)
  | succ n ih =>
    intro b hr hc hcell hbig
    have hsucc : hardDropGo g (n + 1) b =
        if b.canMove 0 1 g then hardDropGo g n { b with y := b.y + 1 } else b := rfl
    rw [hsucc]
    by_cases hmv : b.canMove 0 1 g = true
    · rw [if_pos hmv]
      exact ih { b with y := b.y + 1 } hr hc hcell (by push_cast at hbig ⊢; omega)
    · rw [if_neg hmv]
      simpa using hmv

/-- Once the unrolled hard-drop loop has reached its exit condition,
additional fuel changes nothing: the loop has terminated. -/
theorem hardDropGo_stable (g : Grid) :
    ∀ (fuel : Nat) (b : Block), (hardDropGo g fuel b).canMove 0 1 g = false →
      ∀ (k : Nat), hardDropGo g (fuel + k) b = hardDropGo g fuel b := by
  intro fuel
  induction fuel with
  | zero =>
    intro b h k
    cases k with
    | zero => rfl
    | succ m =>
      have h0 : (hardDropGo g 0 b).canMove 0 1 g = false := h
      have hsucc : hardDropGo g (m + 1) b =
          if b.canMove 0 1 g then hardDropGo g m { b with y := b.y + 1 } else b := rfl
      rw [Nat.zero_add, hsucc, if_neg (by simp [show b.canMove 0 1 g = false from h0])]
      rfl
  | succ n ih =>
    intro b h k
    have harith : n + 1 + k = n + k + 1 := by omega
    rw [harith]
    have hsucc : ∀ m, hardDropGo g (m + 1) b =
        if b.canMove 0 1 g then hardDropGo g m { b with y := b.y + 1 } else b :=
      fun m => rfl
    by_cases hmv : b.canMove 0 1 g = true
    · have hstep : ∀ m, hardDropGo g (m + 1) b = hardDropGo g m { b with y := b.y + 1 } := by
        intro m
        rw [hsucc m, if_pos hmv]
      rw [hstep n] at h
      rw [hstep (n + k), hstep n]
      exact ih { b with y := b.y + 1 } h k
    · have hstep : ∀ m, hardDropGo g (m + 1) b = b := by
        intro m
        rw [hsucc m, if_neg hmv]
      rw [hstep (n + k), hstep n]

/-- C10: the hard-drop loop terminates in at most `GRID_HEIGHT` iterations
for every piece that has at least one occupied matrix cell and sits at
`y ≥ 0` (true of every reachable piece): after `GRID_HEIGHT` unrolled
steps the exit condition `can_move(0, 1) = false` holds, and any further
fuel leaves the result unchanged. -/
theorem hardDrop_spec (b : Block) (g : Grid) (hy : 0 ≤ b.y)
    (hcell : ∃ r c, r < b.shape.length ∧ c < (b.shape.getD r []).length ∧
      (b.shape.getD r []).getD c false = true) :
    (hardDropGo g GRID_HEIGHT b).canMove 0 1 g = false ∧
    ∀ k, hardDropGo g (GRID_HEIGHT + k) b = hardDropGo g GRID_HEIGHT b := by
  obtain ⟨r, c, hr, hc, hcell⟩ := hcell
  have hgd : b.shape.getD r [] = b.shape.get ⟨r, hr⟩ := by
    rw [List.getD_eq_getElem _ _ hr]
    rfl
  rw [hgd] at hc hcell
  rw [List.getD_eq_getElem _ _ hc] at hcell
  have hexit := hardDropGo_exit g r c GRID_HEIGHT b hr hc hcell
    (by
      have h20 : ((GRID_HEIGHT : Nat) : Int) = 20 := rfl
      rw [h20]
      have hrpos : (0 : Int) ≤ (r : Int) := Int.natCast_nonneg r
      omega)
  exact ⟨hexit, fun k => hardDropGo_stable g GRID_HEIGHT b hexit k⟩

/-- Witness for C10: an O piece at the left wall of the empty board. -/
theorem hardDrop_spec_witness :
    (hardDropGo emptyGrid GRID_HEIGHT oBlockLeft).canMove 0 1 emptyGrid = false ∧
    hardDropGo emptyGrid (GRID_HEIGHT + 5) oBlockLeft =
      hardDropGo emptyGrid GRID_HEIGHT oBlockLeft :=
  ⟨(hardDrop_spec oBlockLeft emptyGrid (by decide)
      ⟨0, 0, by decide, by decide, by decide⟩).1,
    (hardDrop_spec oBlockLeft emptyGrid (by decide)
      ⟨0, 0, by decide, by decide, by decide⟩).2 5⟩

/-- Reading `List.set` through `getD`: the written index reads back the new value
when in range, and everything else is unchanged. -/
theorem set_getD {α : Type} (l : List α) (i j : Nat) (a d : α) :
    (l.set i a).getD j d = if i = j ∧ i < l.length then a else l.getD j d := by
  rw [List.getD_eq_getElem?_getD, List.getElem?_set]
  by_cases h1 : i = j
  · by_cases h2 : i < l.length
    · rw [if_pos h1, if_pos h2, if_pos ⟨h1, h2⟩]
      rfl
    · subst h1
      rw [if_pos rfl, if_neg h2, if_neg (by tauto)]
      rw [List.getD_eq_getElem?_getD l i d, List.getElem?_eq_none (by omega)]
  · rw [if_neg h1, if_neg (by tauto)]
    exact (List.getD_eq_getElem?_getD l j d).symm

/-- Reading any cell after `setCell`. -/
theorem setCell_getD (g : Grid) (a bx y x : Nat) (v : Option Color) :
    ((setCell g a bx v).getD y []).getD x none =
      if a = y ∧ a < g.length ∧ bx = x ∧ bx < (g.getD a []).length then v
      else (g.getD y []).getD x none := by
  rw [setCell, set_getD]
  by_cases h1 : a = y ∧ a < g.length
  · rw [if_pos h1]
    obtain ⟨hay, hal⟩ := h1
    subst hay
    rw [set_getD]
    by_cases h2 : bx = x ∧ bx < (g.getD a []).length
    · rw [if_pos h2, if_pos ⟨rfl, hal, h2.1, h2.2⟩]
    · rw [if_neg h2, if_neg (by tauto)]
  · rw [if_neg h1, if_neg (by tauto)]

/-- Writing with `setCell` keeps the number of rows. -/
theorem setCell_length (g : Grid) (a bx : Nat) (v : Option Color) :
    (setCell g a bx v).length = g.length := by
  simp [setCell]

/-- Writing with `setCell` keeps the length of every row. -/
theorem setCell_row_length (g : Grid) (a bx y : Nat) (v : Option Color) :
    ((setCell g a bx v).getD y []).length = (g.getD y []).length := by
  rw [setCell, set_getD]
  by_cases h1 : a = y ∧ a < g.length
  · rw [if_pos h1]
    obtain ⟨hay, _⟩ := h1
    subst hay
    simp
  · rw [if_neg h1]

/-- A `place_block` cell step never erases an occupied cell. -/
theorem placeCellStep_getD_some (b : Block) (r : Nat) (g : Grid) (xc : Nat × Bool)
    (y x : Nat) (h : ((g.getD y []).getD x none).isSome = true) :
    (((placeCellStep b r g xc).getD y []).getD x none).isSome = true := by
  simp only [placeCellStep]
  split_ifs with h1 h2 h3
  · rw [setCell_getD]
    split_ifs with h4
    · rfl
    · exact h
  · exact h
  · exact h
  · exact h

/-- A `place_block` cell step keeps the number of rows. -/
theorem placeCellStep_length (b : Block) (r : Nat) (g : Grid) (xc : Nat × Bool) :
    (placeCellStep b r g xc).length = g.length := by
  simp only [placeCellStep]
  split_ifs with h1 h2 h3
  · rw [setCell_length]
  · rfl
  · rfl
  · rfl

/-- A `place_block` cell step keeps the length of each row. -/
theorem placeCellStep_row_length (b : Block) (r : Nat) (g : Grid) (xc : Nat × Bool)
    (y : Nat) : ((placeCellStep b r g xc).getD y []).length = (g.getD y []).length := by
  simp only [placeCellStep]
  split_ifs with h1 h2 h3
  · rw [setCell_row_length]
  · rfl
  · rfl
  · rfl

/-- The inner fold of `place_block` never erases an occupied cell. -/
theorem foldPlaceCell_preserves_some (b : Block) (r : Nat) (l : List (Nat × Bool)) :
    ∀ (g : Grid) (y x : Nat), ((g.getD y []).getD x none).isSome = true →
      (((l.foldl (placeCellStep b r) g).getD y []).getD x none).isSome = true := by
  induction l with
  | nil => intro g y x h; exact h
  | cons p l ih =>
    intro g y x h
    rw [List.foldl_cons]
    exact ih _ y x (placeCellStep_getD_some b r g p y x h)

/-- The inner fold of `place_block` keeps the number of rows. -/
theorem foldPlaceCell_length (b : Block) (r : Nat) (l : List (Nat × Bool)) :
    ∀ g : Grid, (l.foldl (placeCellStep b r) g).length = g.length := by
  induction l with
  | nil => intro g; rfl
  | cons p l ih =>
    intro g
    rw [List.foldl_cons, ih, placeCellStep_length]

/-- The inner fold of `place_block` keeps the length of each row. -/
theorem foldPlaceCell_row_length (b : Block) (r : Nat) (l : List (Nat × Bool)) :
    ∀ (g : Grid) (y : Nat),
      ((l.foldl (placeCellStep b r) g).getD y []).length = (g.getD y []).length := by
  induction l with
  | nil => intro g y; rfl
  | cons p l ih =>
    intro g y
    rw [List.foldl_cons, ih, placeCellStep_row_length]

/-- A whole-row step of `place_block` never erases an occupied cell. -/
theorem placeRowStep_getD_some (b : Block) (g : Grid) (yrow : Nat × List Bool)
    (y x : Nat) (h : ((g.getD y []).getD x none).isSome = true) :
    (((placeRowStep b g yrow).getD y []).getD x none).isSome = true := by
  rw [placeRowStep]
  exact foldPlaceCell_preserves_some b yrow.1 yrow.2.enum g y x h

/-- A whole-row step of `place_block` keeps the number of rows. -/
theorem placeRowStep_length (b : Block) (g : Grid) (yrow : Nat × List Bool) :
    (placeRowStep b g yrow).length = g.length := by
  rw [placeRowStep]
  exact foldPlaceCell_length b yrow.1 yrow.2.enum g

/-- A whole-row step of `place_block` keeps the length of each row. -/
theorem placeRowStep_row_length (b : Block) (g : Grid) (yrow : Nat × List Bool)
    (y : Nat) : ((placeRowStep b g yrow).getD y []).length = (g.getD y []).length := by
  rw [placeRowStep]
  exact foldPlaceCell_row_length b yrow.1 yrow.2.enum g y

/-- The outer fold of `place_block` never erases an occupied cell. -/
theorem foldPlaceRow_preserves_some (b : Block) (l : List (Nat × List Bool)) :
    ∀ (g : Grid) (y x : Nat), ((g.getD y []).getD x none).isSome = true →
      (((l.foldl (placeRowStep b) g).getD y []).getD x none).isSome = true := by
  induction l with
  | nil => intro g y x h; exact h
  | cons p l ih =>
    intro g y x h
    rw [List.foldl_cons]
    exact ih _ y x (placeRowStep_getD_some b g p y x h)

/-- The inner fold of `place_block` writes the colour into the board cell
of every occupied, in-bounds cell of the processed row. -/
theorem foldPlaceCell_sets (b : Block) (r : Nat) (row : List Bool) :
    ∀ (m : Nat) (g : Grid) (c : Nat) (hc : c < row.length),
      row.get ⟨c, hc⟩ = true →
      0 ≤ b.y + (r : Int) → b.y + (r : Int) < (GRID_HEIGHT : Int) →
      0 ≤ b.x + ((m + c : Nat) : Int) →
      (b.y + (r : Int)).toNat < g.length →
      (b.x + ((m + c : Nat) : Int)).toNat < (g.getD (b.y + (r : Int)).toNat []).length →
      ((((row.enumFrom m).foldl (placeCellStep b r) g).getD
          (b.y + (r : Int)).toNat []).getD
          (b.x + ((m + c : Nat) : Int)).toNat none).isSome = true := by
  induction row with
  | nil => intro m g c hc; exact absurd hc (by simp)
  | cons v rest ih =>
    intro m g c hc hcell hy1 hy2 hx1 hgl hrl
    rw [List.enumFrom_cons, List.foldl_cons]
    cases c with
    | zero =>
      simp only [Nat.add_zero] at hx1 hrl ⊢
      have hv : v = true := hcell
      have hstep : placeCellStep b r g (m, v) =
          setCell g (b.y + (r : Int)).toNat (b.x + (m : Int)).toNat (some b.color) := by
        simp [placeCellStep, hv, hy1, hy2, hx1]
      rw [hstep]
      apply foldPlaceCell_preserves_some
      rw [setCell_getD, if_pos ⟨rfl, hgl, rfl, hrl⟩]
      rfl
    | succ c1 =>
      rw [show (m + (c1 + 1) : Nat) = (m + 1) + c1 from by omega] at hx1 hrl ⊢
      have hc1 : c1 < rest.length := by
        have := hc
        simp at this
        omega
      apply ih (m + 1) (placeCellStep b r g (m, v)) c1 hc1 hcell hy1 hy2 hx1
      · rw [placeCellStep_length]
        exact hgl
      · rw [placeCellStep_row_length]
        exact hrl

/-- The outer fold of `place_block` writes the colour into the board cell
of every occupied, in-bounds cell of the shape. -/
theorem foldPlaceRow_sets (b : Block) (ls : List (List Bool)) :
    ∀ (m : Nat) (g : Grid) (r : Nat) (hr : r < ls.length) (c : Nat)
      (hc : c < (ls.get ⟨r, hr⟩).length),
      (ls.get ⟨r, hr⟩).get ⟨c, hc⟩ = true →
      0 ≤ b.y + ((m + r : Nat) : Int) →
      b.y + ((m + r : Nat) : Int) < (GRID_HEIGHT : Int) →
      0 ≤ b.x + (c : Int) →
      (b.y + ((m + r : Nat) : Int)).toNat < g.length →
      (b.x + (c : Int)).toNat < (g.getD (b.y + ((m + r : Nat) : Int)).toNat []).length →
      ((((ls.enumFrom m).foldl (placeRowStep b) g).getD
          (b.y + ((m + r : Nat) : Int)).toNat []).getD
          (b.x + (c : Int)).toNat none).isSome = true := by
  induction ls with
  | nil => intro m g r hr; exact absurd hr (by simp)
  | cons row rest ih =>
    intro m g r hr c hc hcell hy1 hy2 hx1 hgl hrl
    rw [List.enumFrom_cons, List.foldl_cons]
    cases r with
    | zero =>
      simp only [Nat.add_zero] at hy1 hy2 hgl hrl ⊢
      apply foldPlaceRow_preserves_some
      have hrow : placeRowStep b g (m, row) = (row.enumFrom 0).foldl (placeCellStep b m) g :=
        rfl
      rw [hrow]
      have hset := foldPlaceCell_sets b m row 0 g c hc hcell hy1 hy2
        (by rw [Nat.zero_add]; exact hx1)
        hgl
        (by rw [Nat.zero_add]; exact hrl)
      rw [Nat.zero_add] at hset
      exact hset
    | succ r1 =>
      rw [show (m + (r1 + 1) : Nat) = (m + 1) + r1 from by omega] at hy1 hy2 hgl hrl ⊢
      have hr1 : r1 < rest.length := by
        have := hr
        simp at this
        omega
      apply ih (m + 1) (placeRowStep b g (m, row)) r1 hr1 c hc hcell hy1 hy2 hx1
      · rw [placeRowStep_length]
        exact hgl
      · rw [placeRowStep_row_length]
        exact hrl

/-- Function `place_block` writes the colour into the board cell of every occupied,
in-bounds cell of the shape. -/
theorem placeBlock_getD_some (b : Block) (g : Grid) (r c : Nat) (hr : r < b.shape.length)
    (hc : c < (b.shape.get ⟨r, hr⟩).length)
    (hcell : (b.shape.get ⟨r, hr⟩).get ⟨c, hc⟩ = true)
    (hy1 : 0 ≤ b.y + (r : Int)) (hy2 : b.y + (r : Int) < (GRID_HEIGHT : Int))
    (hx1 : 0 ≤ b.x + (c : Int))
    (hgl : (b.y + (r : Int)).toNat < g.length)
    (hrl : (b.x + (c : Int)).toNat < (g.getD (b.y + (r : Int)).toNat []).length) :
    (((placeBlock b g).getD (b.y + (r : Int)).toNat []).getD
      (b.x + (c : Int)).toNat none).isSome = true := by
  rw [placeBlock]
  have he : b.shape.enum = b.shape.enumFrom 0 := rfl
  rw [he]
  have hset := foldPlaceRow_sets b b.shape 0 g r hr c hc hcell
    (by rw [Nat.zero_add]; exact hy1)
    (by rw [Nat.zero_add]; exact hy2)
    hx1
    (by rw [Nat.zero_add]; exact hgl)
    (by rw [Nat.zero_add]; exact hrl)
  rw [Nat.zero_add] at hset
  exact hset

/-- C8 (counterexample): an O piece placed at the bottom of the empty
board satisfies `can_move(0, 0)` before placement, but immediately
re-querying `can_move(0, 0)` after `place` returns `false`: the piece
collides with its own just-placed cells. -/
theorem place_canMove_counterexample :
    Block.canMove oBlock 0 0 emptyGrid = true ∧
    Block.canMove oBlock 0 0 (placeBlock oBlock emptyGrid) = false := by
  refine ⟨by decide, by decide⟩

/-- C8 (amended): for a placeable piece (`can_move(0, 0)` true) with at
least one occupied matrix cell on a row `≥ 0`, placing it on a well-formed
board makes the immediate re-query `can_move(0, 0)` return `false`. -/
theorem place_then_canMove_false (b : Block) (g : Grid) (hwf : WellFormed g)
    (hcm : b.canMove 0 0 g = true) (r c : Nat) (hr : r < b.shape.length)
    (hc : c < (b.shape.get ⟨r, hr⟩).length)
    (hcell : (b.shape.get ⟨r, hr⟩).get ⟨c, hc⟩ = true)
    (hy : 0 ≤ b.y + (r : Int)) :
    b.canMove 0 0 (placeBlock b g) = false := by
  obtain ⟨h1, h2, h3, _⟩ := (canMove_eq_true_iff b 0 0 g).mp hcm r hr c hc hcell
  have h20i : (GRID_HEIGHT : Int) = 20 := rfl
  have h10i : (GRID_WIDTH : Int) = 10 := rfl
  have hgl : (b.y + (r : Int)).toNat < g.length := by
    rw [hwf.1]
    omega
  have hrl : (b.x + (c : Int)).toNat < (g.getD (b.y + (r : Int)).toNat []).length := by
    have hrow : (g.getD (b.y + (r : Int)).toNat []).length = GRID_WIDTH := by
      rw [List.getD_eq_getElem _ _ hgl]
      exact hwf.2 _ (List.getElem_mem hgl)
    rw [hrow]
    omega
  have hsome := placeBlock_getD_some b g r c hr hc hcell hy (by omega) (by omega) hgl hrl
  have hgd : b.shape.getD r [] = b.shape.get ⟨r, hr⟩ := by
    rw [List.getD_eq_getElem _ _ hr]
    rfl
  rw [canMove_eq_false_iff]
  refine ⟨r, c, hr, by rw [hgd]; exact hc, ?_, ?_⟩
  · rw [hgd, List.getD_eq_getElem _ _ hc]
    exact hcell
  · refine Or.inr (Or.inr (Or.inr ⟨by omega, by omega, ?_⟩))
    have hya : b.y + (r : Int) + 0 = b.y + (r : Int) := by omega
    have hxa : b.x + (c : Int) + 0 = b.x + (c : Int) := by omega
    rw [hya, hxa]
    exact hsome

/-- Witness for C8 (amended) at an O piece at the top-left of the empty
board. -/
theorem place_then_canMove_false_witness :
    Block.canMove oBlockLeft 0 0 (placeBlock oBlockLeft emptyGrid) = false :=
  place_then_canMove_false oBlockLeft emptyGrid (by decide) (by decide) 0 0
    (by decide) (by decide) (by decide) (by decide)

end LollypopTetris
